import Mathlib

/-!
# Verification of the WinMerge `CDiffTextBuffer` core (Src/DiffTextBuffer.cpp)

This file gives a shallow embedding of the line-oriented diff text buffer:
the EOL style detector, the control-character escaper, the load-time line
splitting loop, the save pipeline, the line-edited flag notification, the
sync-point invalidation in `DeleteText2`, and `GetFullLine`.  Each
definition is translated from the C++ source; collaborators that live
outside the translated file (the `UniFile` reader, `CCrystalTextBuffer`
flag primitives, the owning document's sync-point bookkeeping) are
modelled from the specification's description of their interfaces, and
are marked as such in their doc comments.

Characters are modelled as natural-number character codes (`TCHAR` values
are non-negative), strings as `List Nat`.
-/

namespace DiffTextBuffer

/-! ## Data model -/

/-- EOL style enumeration (`CRLFSTYLE` of the crystal editor:
`CRLF_STYLE_AUTOMATIC/DOS/UNIX/MAC/MIXED`). -/
inductive EolStyle where
  | automatic
  | dos
  | unix
  | mac
  | mixed
deriving DecidableEq, Repr

/-- `UniMemFile::txtstats`: the aggregate EOL counts gathered while
reading a file (number of CRLF pairs, lone CRs, lone LFs). -/
structure TxtStats where
  ncrlfs : Nat
  ncrs : Nat
  nlfs : Nat
deriving DecidableEq, Repr

/-- The per-line flag bitset (`MergeLineFlags.h`): `LF_DIFF`, `LF_TRIVIAL`,
`LF_MOVED`, `LF_SNP`, `LF_GHOST`, `LF_INVISIBLE` are independently
settable bits of the line's `DWORD` flag word; they are modelled as one
boolean field each. -/
structure LineFlags where
  diff : Bool := false
  triv : Bool := false
  moved : Bool := false
  snp : Bool := false
  ghost : Bool := false
  invisible : Bool := false
deriving DecidableEq, Repr

/-- A logical line of the buffer: its character content excluding the EOL
marker, the EOL marker itself (`"\r\n"`, `"\n"`, `"\r"` or empty for an
unterminated final line), and its flag bits. -/
structure LogicalLine where
  text : List Nat
  eol : List Nat
  flags : LineFlags := {}
deriving DecidableEq, Repr

instance : Inhabited LogicalLine := ⟨⟨[], [], {}⟩⟩

/-- The flag kinds that `CDiffTextBuffer` manipulates through
`SetLineFlag`. -/
inductive MergeLineFlag where
  | lfDiff
  | lfTrivial
  | lfMoved
  | lfSnp
  | lfGhost
  | lfInvisible
deriving DecidableEq, Repr

/-- Update one bit of a flag word. -/
def setFlagBit (f : LineFlags) (flag : MergeLineFlag) (bSet : Bool) : LineFlags :=
  match flag with
  | .lfDiff => { f with diff := bSet }
  | .lfTrivial => { f with triv := bSet }
  | .lfMoved => { f with moved := bSet }
  | .lfSnp => { f with snp := bSet }
  | .lfGhost => { f with ghost := bSet }
  | .lfInvisible => { f with invisible := bSet }

/-- Modelled from the spec: `CCrystalTextBuffer::SetLineFlag` (declared in
the crystal editor, not part of the translated file) sets or clears the
given flag bit on the given line; its further parameters control
modified-marking and ghost bookkeeping and do not change other flag
bits. -/
def SetLineFlag (lines : List LogicalLine) (nLine : Nat) (flag : MergeLineFlag)
    (bSet : Bool) : List LogicalLine :=
  lines.set nLine
    (let l := lines.getD nLine default
     { l with flags := setFlagBit l.flags flag bSet })

/-- `OnNotifyLineHasBeenEdited` (DiffTextBuffer.cpp, lines 243-250): clear
`LF_DIFF`, `LF_TRIVIAL`, `LF_MOVED` and `LF_SNP` on the edited line, then
defer to `CGhostTextBuffer::OnNotifyLineHasBeenEdited` (modelled from the
spec: the base handler performs no flag changes). -/
def OnNotifyLineHasBeenEdited (lines : List LogicalLine) (nLine : Nat) :
    List LogicalLine :=
  SetLineFlag (SetLineFlag (SetLineFlag (SetLineFlag lines nLine
    MergeLineFlag.lfDiff false) nLine MergeLineFlag.lfTrivial false) nLine
    MergeLineFlag.lfMoved false) nLine MergeLineFlag.lfSnp false

/-! ## EOL style detector (`IsTextFileStylePure` / `GetTextFileStyle`) -/

/-- `IsTextFileStylePure` (DiffTextBuffer.cpp, lines 40-50): counts how
many of the three EOL counters are nonzero and reports purity when at
most one is. -/
def IsTextFileStylePure (stats : TxtStats) : Bool :=
  let nType0 : Nat := 0
  let nType1 := if stats.ncrlfs > 0 then nType0 + 1 else nType0
  let nType2 := if stats.ncrs > 0 then nType1 + 1 else nType1
  let nType3 := if stats.nlfs > 0 then nType2 + 1 else nType2
  nType3 ≤ 1

/-- `GetTextFileStyle` (DiffTextBuffer.cpp, lines 105-124): MIXED when the
stats are not pure, otherwise a nested comparison of the three counts. -/
def GetTextFileStyle (stats : TxtStats) : EolStyle :=
  if !IsTextFileStylePure stats then
    EolStyle.mixed
  else if stats.ncrlfs ≥ stats.nlfs then
    (if stats.ncrlfs ≥ stats.ncrs then EolStyle.dos else EolStyle.mac)
  else
    (if stats.nlfs ≥ stats.ncrs then EolStyle.unix else EolStyle.mac)

/-- The number of nonzero counts among the triple. -/
def nonzeroEolKinds (stats : TxtStats) : Nat :=
  (if stats.ncrlfs > 0 then 1 else 0) +
  (if stats.ncrs > 0 then 1 else 0) +
  (if stats.nlfs > 0 then 1 else 0)

/-- The claim's description of the detector: MIXED when more than one
count is nonzero, else the flat cascade DOS / UNIX / MAC. -/
def claimedTextFileStyle (stats : TxtStats) : EolStyle :=
  if 1 < nonzeroEolKinds stats then
    EolStyle.mixed
  else if stats.ncrlfs ≥ stats.nlfs ∧ stats.ncrlfs ≥ stats.ncrs then
    EolStyle.dos
  else if stats.nlfs ≥ stats.ncrs then
    EolStyle.unix
  else
    EolStyle.mac

/-! ## Control-character escaper (`EscapeControlChars`, lines 60-98) -/

/-- The character test `!(c & ~0x1F) && c != '\t'` of `EscapeControlChars`:
for a non-negative character code, clearing outside the low five bits
leaves zero exactly when the code is in the control range [0, 31];
horizontal tab is excepted. -/
def isEscapedChar (c : Nat) : Bool :=
  c < 32 && c != 9

/-- One hexadecimal digit character as produced by `_itot(..., 16)`
(lowercase letters for values 10-15). -/
def hexDigitChar (d : Nat) : Nat :=
  if d < 10 then 48 + d else 87 + d

/-- The length-computation pass of `EscapeControlChars` (lines 63-74):
3 extra characters are needed for every character to be escaped. -/
def escapeExtraLen : List Nat → Nat
  | [] => 0
  | c :: rest => (if isEscapedChar c then 3 else 0) + escapeExtraLen rest

/-- The copy/translate pass of `EscapeControlChars` (lines 79-96), copying
characters starting at the end of the buffer.  `i` is the read index into
the original characters, `n` the write frontier.  For an escaped character
`c = p[--i]`, `_itot(0x100 | c, p + n - 4, 16)` writes the character `'1'`
(code 49), the two hex nibbles, and a terminating zero at positions
`n-4 .. n-1`; the terminating zero is then overwritten with the backslash
lead-out (92), `n` drops by 3, and `p[--n]` overwrites the `'1'` with the
`'\x0F'` lead-in (15).  Otherwise the character itself is written at
`p[--n]`. -/
def writeLoop : List Nat → Nat → Nat → List Nat
  | buf, 0, _ => buf
  | buf, i + 1, n =>
    if isEscapedChar (buf.getD i 0) then
      writeLoop ((((((buf.set (n - 4) 49).set
        (n - 3) (hexDigitChar (buf.getD i 0 / 16))).set
        (n - 2) (hexDigitChar (buf.getD i 0 % 16))).set
        (n - 1) 0).set (n - 1) 92).set (n - 4) 15) i (n - 4)
    else
      writeLoop (buf.set (n - 1) (buf.getD i 0)) i (n - 1)

/-- `EscapeControlChars` (DiffTextBuffer.cpp, lines 60-98): resize the
string to the escaped length plus one (`resize` pads with zero
characters), run the in-place copy/translate pass over it, and drop the
final scratch character again. -/
def EscapeControlChars (s : List Nat) : List Nat :=
  let n := s.length + escapeExtraLen s
  let buf := s ++ List.replicate (n + 1 - s.length) 0
  (writeLoop buf s.length n).take n

/-- The per-character escape map as the claim describes it: a control
character in [0, 31] other than tab becomes the 4-character sequence
(lead-in `0x0F`, high hex nibble, low hex nibble, backslash); every other
character stays itself. -/
def escapeCharSpec (c : Nat) : List Nat :=
  if isEscapedChar c then [15, hexDigitChar (c / 16), hexDigitChar (c % 16), 92]
  else [c]

/-- The value of a hexadecimal digit character (inverse of `hexDigitChar`). -/
def hexCharVal (c : Nat) : Nat :=
  if c < 58 then c - 48 else c - 87

/-- Modelled from the spec: the documented reverse transform of the escape
(the source notes the escape is fully reversible but leaves the reverse to
the diff engine's consumer).  A lead-in `0x0F` followed by two hex nibbles
and a backslash lead-out decodes back to the escaped character; everything
else is copied unchanged. -/
def unescapeControlChars : List Nat → List Nat
  | [] => []
  | [c] => [c]
  | [c, d] => [c, d]
  | [c, d, e] => [c, d, e]
  | c :: d :: e :: f :: rest =>
    if c = 15 ∧ f = 92 then
      (hexCharVal d * 16 + hexCharVal e) :: unescapeControlChars rest
    else
      c :: unescapeControlChars (d :: e :: f :: rest)

/-! ## Load pipeline: the read loop of `LoadFromFile` (lines 357-403) -/

/-- Split the trailing EOL marker off a just-read line: `AppendLine` hands
the line store the line's characters with the EOL marker appended
(`sline += eol`), and the store records text and EOL marker separately.
The reader never leaves CR or LF characters inside the text part. -/
def splitEol (s : List Nat) : LogicalLine :=
  if 2 ≤ s.length ∧ s.drop (s.length - 2) = [13, 10] then
    ⟨s.take (s.length - 2), [13, 10], {}⟩
  else if s.drop (s.length - 1) = [10] then
    ⟨s.take (s.length - 1), [10], {}⟩
  else if s.drop (s.length - 1) = [13] then
    ⟨s.take (s.length - 1), [13], {}⟩
  else
    ⟨s, [], {}⟩

/-- The read loop of `LoadFromFile` (DiffTextBuffer.cpp, lines 357-403).
The reader is modelled from the spec's interface as the list of its
successful `ReadString` results, each one decoded line of text plus its
EOL marker; the failing call after exhaustion leaves both outputs empty.
`preveol` is the previous line's EOL marker; on exhaustion the loop breaks
without appending when `preveol` is empty, and otherwise appends one extra
(empty) line.  (The manual exponential growth of the line array and its
final trim, lines 363-403, manage capacity only and do not change the
resulting line sequence.) -/
def loadLoop : List (List Nat × List Nat) → List Nat → List LogicalLine
  | [], preveol =>
    if preveol = [] then [] else [splitEol ([] ++ [])]
  | (sline, eol) :: rest, _ => splitEol (sline ++ eol) :: loadLoop rest eol

/-- The line sequence produced by `LoadFromFile`'s read loop; `preveol` is
initialized to `"\n"` for empty files (line 368). -/
def loadLines (reads : List (List Nat × List Nat)) : List LogicalLine :=
  loadLoop reads [10]

/-! ## `GetFullLine` (lines 179-190) -/

/-- `GetFullLineLength`: the length of the line's characters including its
EOL marker (a crystal-buffer accessor over the line store). -/
def GetFullLineLength (lines : List LogicalLine) (nLineIndex : Nat) : Nat :=
  ((lines.getD nLineIndex default).text ++ (lines.getD nLineIndex default).eol).length

/-- `GetFullLine` (DiffTextBuffer.cpp, lines 179-190): when the full line
length is zero the output string is emptied and the call reports false;
otherwise the output is the line's text immediately followed by its EOL
marker and the call reports true. -/
def GetFullLine (lines : List LogicalLine) (nLineIndex : Nat) : Bool × List Nat :=
  if GetFullLineLength lines nLineIndex = 0 then
    (false, [])
  else
    (true, (lines.getD nLineIndex default).text ++ (lines.getD nLineIndex default).eol)

/-! ## Sync points and `DeleteText2` (lines 697-709) -/

/-- The owning document state `DeleteText2` interacts with: the list of
registered cross-pane sync points, each carrying one line index per
pane. -/
structure SyncPointDoc where
  syncPoints : List (List Int)
deriving DecidableEq, Repr

/-- Modelled from the spec: `CMergeDoc::DeleteSyncPoint` (not part of the
translated file) invalidates in the owning document every sync point whose
line index for the given pane equals the given line; its final argument
only suppresses an immediate rescan. -/
def DeleteSyncPoint (doc : SyncPointDoc) (nPane : Nat) (nLine : Int) :
    SyncPointDoc :=
  ⟨doc.syncPoints.filter (fun sp => sp.getD nPane 0 != nLine)⟩

/-- The invalidation condition of `DeleteText2` (DiffTextBuffer.cpp, lines
704-705): `((nStartChar == 0 && nStartLine == nLineSyncPoint) ||
nStartLine < nLineSyncPoint) && nLineSyncPoint < nEndLine`. -/
def syncPointHit (nStartLine nStartChar nEndLine nLineSyncPoint : Int) : Bool :=
  ((nStartChar == 0 && nStartLine == nLineSyncPoint) ||
      decide (nStartLine < nLineSyncPoint)) &&
    decide (nLineSyncPoint < nEndLine)

/-- The sync-point pass of `DeleteText2` (DiffTextBuffer.cpp, lines
697-709): before the textual delete is delegated to
`CGhostTextBuffer::DeleteText2` (a collaborator outside the translated
file), iterate over the owning document's sync point list and invalidate
every sync point whose line index for this pane satisfies the hit
condition; the condition is evaluated on the pre-delete line indices. -/
def DeleteText2SyncPass (doc : SyncPointDoc) (nThisPane : Nat)
    (nStartLine nStartChar nEndLine : Int) : SyncPointDoc :=
  doc.syncPoints.foldl
    (fun d syncpnt =>
      if syncPointHit nStartLine nStartChar nEndLine (syncpnt.getD nThisPane 0)
      then DeleteSyncPoint d nThisPane (syncpnt.getD nThisPane 0)
      else d)
    doc

/-! ## Save pipeline (`SaveToFile`, lines 478-666) -/

/-- The unpacker/packer descriptor fields `SaveToFile` consults. -/
structure PackingInfo where
  disallowMixedEOL : Bool
  subcode : Nat := 0
deriving DecidableEq, Repr

/-- The buffer state `SaveToFile` reads and updates. -/
structure BufferState where
  lines : List LogicalLine
  modified : Bool
  syncPosition : Nat
  undoPosition : Nat
  crlfMode : EolStyle
  revisionNumberOnSave : Nat
  currentRevisionNumber : Nat

/-- A model file system: file contents by path. -/
def FileSystem := String → Option (List Nat)

def FileSystem.write (fs : FileSystem) (path : String) (content : List Nat) :
    FileSystem :=
  fun p => if p = path then some content else fs p

def FileSystem.remove (fs : FileSystem) (path : String) : FileSystem :=
  fun p => if p = path then none else fs p

/-- The environment of one `SaveToFile` call: the option-manager lookup and
the outcomes of the I/O collaborators, modelled from the spec's
interfaces.  `tempName` is the `env::GetTemporaryFileName` result (empty
on failure); `openOk` the `UniStdioFile::OpenCreate` outcome; `copyOk` is
false when the final copy/remove block throws; `pack` is
`FileTransform_Packing`, which on success reports the (possibly changed)
temp path and the packed content and on failure changes nothing. -/
structure SaveEnv where
  allowMixedEol : Bool
  tempName : String
  openOk : Bool
  copyOk : Bool
  pack : String → List Nat → Option (String × List Nat)

/-- Result codes of `SaveToFile` (`SAVE_DONE`, `SAVE_FAILED`,
`SAVE_PACK_FAILED` from MergeDoc.h). -/
inductive SaveResult where
  | done
  | failed
  | packFailed
deriving DecidableEq, Repr

/-- Modelled from the spec: `CCrystalTextBuffer::GetStringEol` yields the
canonical EOL marker of a concrete style. -/
def GetStringEol (style : EolStyle) : List Nat :=
  match style with
  | EolStyle.dos => [13, 10]
  | EolStyle.unix => [10]
  | EolStyle.mac => [13]
  | _ => [13, 10]

/-- Modelled from the spec: `CGhostTextBuffer::ApparentLastRealLine` is the
index of the last line not flagged GHOST, or -1 when there is none. -/
def ApparentLastRealLine (lines : List LogicalLine) : Int :=
  match ((List.range lines.length).filter
      (fun i => !(lines.getD i default).flags.ghost)).getLast? with
  | none => -1
  | some i => (i : Int)

/-- The EOL-style substitution condition of `SaveToFile` (DiffTextBuffer.cpp,
lines 494-496), with C++ operator precedence: `&&` binds tighter than
`||`, so the condition is (requested style is AUTOMATIC and the mixed-EOL
option is off) or (a packing info is present and it disallows mixed
EOL). -/
def substituteEolStyle (nCrlfStyle : EolStyle) (allowMixedEol : Bool)
    (infoUnpacker : Option PackingInfo) : Bool :=
  (nCrlfStyle == EolStyle.automatic && !allowMixedEol) ||
    (match infoUnpacker with
     | some info => info.disallowMixedEOL
     | none => false)

/-- The requested EOL style after the substitution step of `SaveToFile`
(lines 494-501): the buffer's recorded style when the substitution
condition holds, the requested style otherwise. -/
def effectiveEolStyle (nCrlfStyle : EolStyle) (allowMixedEol : Bool)
    (infoUnpacker : Option PackingInfo) (bufStyle : EolStyle) : EolStyle :=
  if substituteEolStyle nCrlfStyle allowMixedEol infoUnpacker then bufStyle
  else nCrlfStyle

/-- The line loop of `SaveToFile` (lines 544-590) over a list of line
indices: skip GHOST lines; escape control characters when writing a temp
file; write the last real line with no EOL and stop; give every other line
its own EOL marker under AUTOMATIC/MIXED or the canonical marker of the
requested style. -/
def saveLineLoop (lines : List LogicalLine) (bTempFile : Bool)
    (nCrlfStyle : EolStyle) (lastRealLine : Int) : List Nat → List Nat
  | [] => []
  | line :: rest =>
    if (lines.getD line default).flags.ghost then
      saveLineLoop lines bTempFile nCrlfStyle lastRealLine rest
    else
      let sLine := if bTempFile then
          EscapeControlChars (lines.getD line default).text
        else (lines.getD line default).text
      if (line : Int) = lastRealLine ∨ lastRealLine = -1 then
        sLine
      else if nCrlfStyle = EolStyle.automatic ∨ nCrlfStyle = EolStyle.mixed then
        sLine ++ (lines.getD line default).eol ++
          saveLineLoop lines bTempFile nCrlfStyle lastRealLine rest
      else
        sLine ++ GetStringEol nCrlfStyle ++
          saveLineLoop lines bTempFile nCrlfStyle lastRealLine rest

/-- The character content `SaveToFile` writes for the requested range (the
encoding and BOM application is carried by the writer collaborator and
does not change which characters are produced). -/
def savedContent (buf : BufferState) (bTempFile : Bool) (nCrlfStyle : EolStyle)
    (nStartLine nLines : Nat) : List Nat :=
  saveLineLoop buf.lines bTempFile nCrlfStyle (ApparentLastRealLine buf.lines)
    (List.range' nStartLine nLines)

/-- The `nLines == -1` default of `SaveToFile` (lines 488-489): the whole
rest of the buffer; `none` models `-1`. -/
def resolveLineCount (buf : BufferState) (nStartLine : Nat) : Option Nat → Nat
  | none => buf.lines.length - nStartLine
  | some k => k

/-- `SaveToFile` (DiffTextBuffer.cpp, lines 478-666): reject an empty
destination; substitute the EOL style per `effectiveEolStyle`; for a temp
file open and write the destination directly, else write an intermediate
temp file, run the pack transform on it (deleting the temp artifact and
returning `SAVE_PACK_FAILED` on pack failure without touching the real
destination), track a pack-changed temp path, copy the temp over the
original and delete it, and on success optionally clear the modified flag,
advance the undo sync position and record the revision number. -/
def SaveToFile (env : SaveEnv) (buf : BufferState) (fs : FileSystem)
    (pszFileName : String) (bTempFile : Bool) (infoUnpacker : Option PackingInfo)
    (nCrlfStyle : EolStyle) (bClearModifiedFlag : Bool) (nStartLine : Nat)
    (nLines : Option Nat) : SaveResult × FileSystem × BufferState :=
  if pszFileName = "" then (SaveResult.failed, fs, buf)
  else if bTempFile then
    if !env.openOk then (SaveResult.failed, fs, buf)
    else
      (SaveResult.done,
       fs.write pszFileName (savedContent buf bTempFile
         (effectiveEolStyle nCrlfStyle env.allowMixedEol infoUnpacker buf.crlfMode)
         nStartLine (resolveLineCount buf nStartLine nLines)),
       if bClearModifiedFlag then
         { buf with modified := false, syncPosition := buf.undoPosition }
       else buf)
  else if env.tempName = "" then (SaveResult.failed, fs, buf)
  else if !env.openOk then (SaveResult.failed, fs, buf)
  else
    match env.pack env.tempName (savedContent buf bTempFile
        (effectiveEolStyle nCrlfStyle env.allowMixedEol infoUnpacker buf.crlfMode)
        nStartLine (resolveLineCount buf nStartLine nLines)) with
    | none =>
      (SaveResult.packFailed,
       (fs.write env.tempName (savedContent buf bTempFile
         (effectiveEolStyle nCrlfStyle env.allowMixedEol infoUnpacker buf.crlfMode)
         nStartLine (resolveLineCount buf nStartLine nLines))).remove env.tempName,
       buf)
    | some (newPath, newContent) =>
      let fs3 :=
        if newPath ≠ env.tempName then
          (((fs.write env.tempName (savedContent buf bTempFile
              (effectiveEolStyle nCrlfStyle env.allowMixedEol infoUnpacker
                buf.crlfMode)
              nStartLine (resolveLineCount buf nStartLine nLines))).write
            newPath newContent).remove env.tempName)
        else
          ((fs.write env.tempName (savedContent buf bTempFile
              (effectiveEolStyle nCrlfStyle env.allowMixedEol infoUnpacker
                buf.crlfMode)
              nStartLine (resolveLineCount buf nStartLine nLines))).write
            newPath newContent)
      if env.copyOk then
        (SaveResult.done,
         (fs3.write pszFileName newContent).remove newPath,
         { (if bClearModifiedFlag then
              { buf with modified := false, syncPosition := buf.undoPosition }
            else buf) with
           revisionNumberOnSave := buf.currentRevisionNumber })
      else (SaveResult.failed, fs3, buf)

end DiffTextBuffer

namespace DiffTextBuffer

/-! ## Theorems: EOL style detector (claims C1, C2) -/

theorem isPure_iff (stats : TxtStats) :
    IsTextFileStylePure stats = decide (nonzeroEolKinds stats ≤ 1) := by
  simp only [IsTextFileStylePure, nonzeroEolKinds]
  split_ifs <;> simp

theorem getTextFileStyle_eq_claimed (stats : TxtStats) :
    GetTextFileStyle stats = claimedTextFileStyle stats := by
  rcases stats with ⟨ncrlfs, ncrs, nlfs⟩
  by_cases h1 : ncrlfs > 0 <;> by_cases h2 : ncrs > 0 <;> by_cases h3 : nlfs > 0 <;>
    simp only [GetTextFileStyle, claimedTextFileStyle, IsTextFileStylePure,
      nonzeroEolKinds, h1, h2, h3, if_true, if_false, if_pos, if_neg, not_false_iff] <;>
    split_ifs <;> first | rfl | omega | simp_all

theorem isPure_eq_false_of_two (stats : TxtStats) (h : 1 < nonzeroEolKinds stats) :
    IsTextFileStylePure stats = false := by
  rw [isPure_iff, decide_eq_false_iff_not]
  omega

theorem style_mixed_of_two (stats : TxtStats) (h : 1 < nonzeroEolKinds stats) :
    GetTextFileStyle stats = EolStyle.mixed := by
  rw [getTextFileStyle_eq_claimed]
  simp only [claimedTextFileStyle]
  rw [if_pos h]

/-- C1: For every EOL count triple `(crlf, cr, lf)`: if more than one of the
three counts is nonzero, the detector reports not-pure and returns style
MIXED; otherwise it returns DOS if `crlf ≥ lf` and `crlf ≥ cr`, else UNIX
if `lf ≥ cr`, else MAC.  In particular a triple whose only nonzero count is
crlf gives DOS, only lf gives UNIX, only cr gives MAC, and the all-zero
triple gives DOS. -/
theorem eolDetector_matches_claim :
    (∀ stats : TxtStats,
        IsTextFileStylePure stats = decide (nonzeroEolKinds stats ≤ 1))
    ∧ (∀ stats : TxtStats, GetTextFileStyle stats = claimedTextFileStyle stats)
    ∧ (∀ a b c : Nat,
        IsTextFileStylePure ⟨a + 1, b + 1, c⟩ = false ∧
        IsTextFileStylePure ⟨a + 1, b, c + 1⟩ = false ∧
        IsTextFileStylePure ⟨a, b + 1, c + 1⟩ = false ∧
        GetTextFileStyle ⟨a + 1, b + 1, c⟩ = EolStyle.mixed ∧
        GetTextFileStyle ⟨a + 1, b, c + 1⟩ = EolStyle.mixed ∧
        GetTextFileStyle ⟨a, b + 1, c + 1⟩ = EolStyle.mixed)
    ∧ (∀ n : Nat,
        GetTextFileStyle ⟨n + 1, 0, 0⟩ = EolStyle.dos ∧
        GetTextFileStyle ⟨0, 0, n + 1⟩ = EolStyle.unix ∧
        GetTextFileStyle ⟨0, n + 1, 0⟩ = EolStyle.mac)
    ∧ GetTextFileStyle ⟨0, 0, 0⟩ = EolStyle.dos := by
  refine ⟨isPure_iff, getTextFileStyle_eq_claimed, ?_, ?_, by decide⟩
  · intro a b c
    have h1 : 1 < nonzeroEolKinds ⟨a + 1, b + 1, c⟩ := by
      simp only [nonzeroEolKinds]
      split_ifs <;> omega
    have h2 : 1 < nonzeroEolKinds ⟨a + 1, b, c + 1⟩ := by
      simp only [nonzeroEolKinds]
      split_ifs <;> omega
    have h3 : 1 < nonzeroEolKinds ⟨a, b + 1, c + 1⟩ := by
      simp only [nonzeroEolKinds]
      split_ifs <;> omega
    exact ⟨isPure_eq_false_of_two _ h1, isPure_eq_false_of_two _ h2,
      isPure_eq_false_of_two _ h3, style_mixed_of_two _ h1,
      style_mixed_of_two _ h2, style_mixed_of_two _ h3⟩
  · intro n
    refine ⟨?_, ?_, ?_⟩ <;>
      · rw [getTextFileStyle_eq_claimed]
        simp only [claimedTextFileStyle, nonzeroEolKinds]
        split_ifs <;> first | rfl | omega

/-- C2 counterexample: the detector does not return DOS for
`(crlf = 3, cr = 3, lf = 0)` and does not return UNIX for
`(crlf = 0, cr = 4, lf = 4)` — both triples have two nonzero counts, so the
purity check fires first. -/
theorem eolDetector_tie_counterexample :
    GetTextFileStyle ⟨3, 3, 0⟩ ≠ EolStyle.dos ∧
    GetTextFileStyle ⟨0, 4, 4⟩ ≠ EolStyle.unix := by
  decide

/-- C2 amended: the detector returns MIXED for `(3,3,0)` and for `(0,4,4)`,
because the purity check precedes the pairwise comparison and each triple
has two nonzero counts; the DOS-then-UNIX-then-MAC tie preference applies
only to triples passing the purity check (e.g. the all-zero triple gives
DOS). -/
theorem eolDetector_tie_amended :
    GetTextFileStyle ⟨3, 3, 0⟩ = EolStyle.mixed ∧
    GetTextFileStyle ⟨0, 4, 4⟩ = EolStyle.mixed ∧
    GetTextFileStyle ⟨0, 0, 0⟩ = EolStyle.dos := by
  decide

/-! ## Theorems: control-character escaper (claims C7, C8) -/

example : EscapeControlChars [1, 9, 65] = [15, 48, 49, 92, 9, 65] := by decide
example : EscapeControlChars [15] = [15, 48, 102, 92] := by decide
example : EscapeControlChars [92] = [92] := by decide
example : unescapeControlChars [15, 48, 49, 92, 9, 65] = [1, 9, 65] := by decide

theorem escapeExtraLen_eq_countP (s : List Nat) :
    escapeExtraLen s = 3 * s.countP isEscapedChar := by
  induction s with
  | nil => rfl
  | cons c rest ih =>
    rw [escapeExtraLen, ih, List.countP_cons]
    split_ifs <;> omega

theorem take_append_take_eq {α : Type*} (A B : List α) (j m : Nat)
    (hm : m ≤ A.length + j) :
    (A ++ B.take j).take m = (A ++ B).take m := by
  rw [List.take_append_eq_append_take, List.take_append_eq_append_take,
    List.take_take]
  have hmin : min (m - A.length) j = m - A.length := Nat.min_eq_left (by omega)
  rw [hmin]

theorem set_last_eq {α : Type*} (Y : List α) (a : α) (h : Y ≠ []) :
    Y.set (Y.length - 1) a = Y.dropLast ++ [a] := by
  have hl : 0 < Y.length := List.length_pos.mpr h
  rw [List.set_eq_take_append_cons_drop, if_pos (by omega), List.dropLast_eq_take]
  have h1 : Y.length - 1 + 1 = Y.length := by omega
  rw [h1, List.drop_length]

theorem set_mid {α : Type*} (Y W Q : List α) (j : Nat) (a : α)
    (hj : j < W.length) :
    ((Y ++ W) ++ Q).set (Y.length + j) a = (Y ++ W.set j a) ++ Q := by
  rw [List.set_append, if_pos (by simp; omega), List.set_append,
    if_neg (by omega)]
  have hsub : Y.length + j - Y.length = j := by omega
  rw [hsub]

theorem exists_four {α : Type*} (l : List α) (h : l.length = 4) :
    ∃ a b c d, l = [a, b, c, d] := by
  rcases l with _ | ⟨a, l⟩
  · simp at h
  rcases l with _ | ⟨b, l⟩
  · simp at h
  rcases l with _ | ⟨c, l⟩
  · simp at h
  rcases l with _ | ⟨d, l⟩
  · simp at h
  rcases l with _ | ⟨e, l⟩
  · exact ⟨a, b, c, d, rfl⟩
  · simp at h

theorem set_mid4_zero {α : Type*} (Y Q : List α) (w1 w2 w3 w4 v : α) :
    ((Y ++ [w1, w2, w3, w4]) ++ Q).set Y.length v = (Y ++ [v, w2, w3, w4]) ++ Q :=
  set_mid Y [w1, w2, w3, w4] Q 0 v (by simp)

theorem set_mid4_one {α : Type*} (Y Q : List α) (w1 w2 w3 w4 v : α) :
    ((Y ++ [w1, w2, w3, w4]) ++ Q).set (Y.length + 1) v
      = (Y ++ [w1, v, w3, w4]) ++ Q :=
  set_mid Y [w1, w2, w3, w4] Q 1 v (by simp)

theorem set_mid4_two {α : Type*} (Y Q : List α) (w1 w2 w3 w4 v : α) :
    ((Y ++ [w1, w2, w3, w4]) ++ Q).set (Y.length + 2) v
      = (Y ++ [w1, w2, v, w4]) ++ Q :=
  set_mid Y [w1, w2, w3, w4] Q 2 v (by simp)

theorem set_mid4_three {α : Type*} (Y Q : List α) (w1 w2 w3 w4 v : α) :
    ((Y ++ [w1, w2, w3, w4]) ++ Q).set (Y.length + 3) v
      = (Y ++ [w1, w2, w3, v]) ++ Q :=
  set_mid Y [w1, w2, w3, w4] Q 3 v (by simp)

/-- Correctness of the in-place copy/translate pass: processing the first
`A.length` characters (the still-untranslated prefix `A`), with write
frontier at `A.length + P.length` and the already-translated output in
`Q`, fills the tail of the scratch region with the escape expansion of
`A`. -/
theorem writeLoop_eq (A P Q : List Nat)
    (h : 3 * A.countP isEscapedChar ≤ P.length) :
    writeLoop ((A ++ P) ++ Q) A.length (A.length + P.length) =
      ((A ++ P).take (P.length - 3 * A.countP isEscapedChar) ++
        A.flatMap escapeCharSpec) ++ Q := by
  induction A using List.reverseRecOn generalizing P Q with
  | nil =>
    simp [writeLoop]
  | append_singleton A' c ih =>
    have hlen : (A' ++ [c]).length = A'.length + 1 := by simp
    rw [hlen]
    simp only [writeLoop]
    have hget : (((A' ++ [c]) ++ P) ++ Q).getD A'.length 0 = c := by
      rw [show ((A' ++ [c]) ++ P) ++ Q = A' ++ ([c] ++ (P ++ Q)) by simp]
      rw [List.getD_append_right A' ([c] ++ (P ++ Q)) 0 A'.length (le_refl _)]
      simp
    rw [hget]
    by_cases hc : isEscapedChar c = true
    · -- escaped character: four writes land just below the write frontier
      simp only [hc, if_true]
      have hcnt : (A' ++ [c]).countP isEscapedChar =
          A'.countP isEscapedChar + 1 := by
        rw [List.countP_append, List.countP_cons]
        simp [hc]
      rw [hcnt] at h
      have hP3 : 3 ≤ P.length := by omega
      have hlen4 : ((c :: P).drop (P.length - 3)).length = 4 := by
        simp only [List.length_drop, List.length_cons]
        omega
      obtain ⟨w1, w2, w3, w4, hws⟩ := exists_four _ hlen4
      have hsplit : c :: P = (c :: P).take (P.length - 3) ++ [w1, w2, w3, w4] := by
        conv_lhs => rw [← List.take_append_drop (P.length - 3) (c :: P)]
        rw [hws]
      have hZ0len : ((c :: P).take (P.length - 3)).length = P.length - 3 := by
        simp only [List.length_take, List.length_cons]
        omega
      have hbuf : ((A' ++ [c]) ++ P) ++ Q
          = ((A' ++ (c :: P).take (P.length - 3)) ++ [w1, w2, w3, w4]) ++ Q := by
        rw [show (A' ++ [c]) ++ P = A' ++ (c :: P) by simp]
        conv_lhs => rw [hsplit]
        simp [List.append_assoc]
      rw [hbuf]
      have hY : (A' ++ (c :: P).take (P.length - 3)).length
          = A'.length + (P.length - 3) := by
        rw [List.length_append, hZ0len]
      have e4 : A'.length + 1 + P.length - 4
          = (A' ++ (c :: P).take (P.length - 3)).length := by
        rw [hY]; omega
      have e3 : A'.length + 1 + P.length - 3
          = (A' ++ (c :: P).take (P.length - 3)).length + 1 := by
        rw [hY]; omega
      have e2 : A'.length + 1 + P.length - 2
          = (A' ++ (c :: P).take (P.length - 3)).length + 2 := by
        rw [hY]; omega
      have e1 : A'.length + 1 + P.length - 1
          = (A' ++ (c :: P).take (P.length - 3)).length + 3 := by
        rw [hY]; omega
      rw [e4, e3, e2, e1]
      rw [set_mid4_zero, set_mid4_one, set_mid4_two, set_mid4_three,
        set_mid4_three, set_mid4_zero]
      rw [show ((A' ++ (c :: P).take (P.length - 3)) ++
            [15, hexDigitChar (c / 16), hexDigitChar (c % 16), 92]) ++ Q
          = (A' ++ (c :: P).take (P.length - 3)) ++
            ([15, hexDigitChar (c / 16), hexDigitChar (c % 16), 92] ++ Q) from
        List.append_assoc _ _ _]
      have hcond : 3 * A'.countP isEscapedChar ≤
          ((c :: P).take (P.length - 3)).length := by
        rw [hZ0len]
        omega
      have hrec := ih ((c :: P).take (P.length - 3))
        ([15, hexDigitChar (c / 16), hexDigitChar (c % 16), 92] ++ Q) hcond
      rw [hZ0len] at hrec
      rw [show (A' ++ (c :: P).take (P.length - 3)).length
          = A'.length + (P.length - 3) from hY, hrec]
      have hm : P.length - 3 * (A' ++ [c]).countP isEscapedChar
          = P.length - 3 - 3 * A'.countP isEscapedChar := by
        rw [hcnt]
        omega
      rw [hm]
      have htake : (A' ++ (c :: P).take (P.length - 3)).take
            (P.length - 3 - 3 * A'.countP isEscapedChar)
          = ((A' ++ [c]) ++ P).take
            (P.length - 3 - 3 * A'.countP isEscapedChar) := by
        rw [take_append_take_eq A' (c :: P) (P.length - 3) _ (by omega)]
        simp
      rw [htake]
      have hfm : (A' ++ [c]).flatMap escapeCharSpec
          = A'.flatMap escapeCharSpec ++
            [15, hexDigitChar (c / 16), hexDigitChar (c % 16), 92] := by
        rw [List.flatMap_append]
        simp [escapeCharSpec, hc]
      rw [hfm]
      simp [List.append_assoc]
    · -- character copied unchanged
      simp only [hc, if_false]
      have hcnt : (A' ++ [c]).countP isEscapedChar = A'.countP isEscapedChar := by
        rw [List.countP_append, List.countP_cons]
        simp [hc]
      rw [hcnt] at h
      have hidx : A'.length + 1 + P.length - 1 = A'.length + P.length := by
        omega
      rw [hidx]
      have hXne : (A' ++ [c]) ++ P ≠ [] := by simp
      have hset : ((((A' ++ [c]) ++ P) ++ Q).set (A'.length + P.length) c)
          = (A' ++ (c :: P).dropLast) ++ (c :: Q) := by
        rw [List.set_append, if_pos (by simp)]
        rw [show A'.length + P.length = ((A' ++ [c]) ++ P).length - 1 by simp]
        rw [set_last_eq _ _ hXne]
        rw [show (A' ++ [c]) ++ P = A' ++ c :: P by simp,
          List.dropLast_append_cons]
        simp
      rw [hset]
      have hlenP : ((c :: P).dropLast).length = P.length := by simp
      have hcond : 3 * A'.countP isEscapedChar ≤ ((c :: P).dropLast).length := by
        rw [hlenP]
        exact h
      have hrec := ih ((c :: P).dropLast) (c :: Q) hcond
      rw [hlenP] at hrec
      rw [hrec, hcnt]
      have htake : (A' ++ (c :: P).dropLast).take
            (P.length - 3 * A'.countP isEscapedChar)
          = ((A' ++ [c]) ++ P).take
            (P.length - 3 * A'.countP isEscapedChar) := by
        rw [show (c :: P).dropLast = (c :: P).take P.length by
          rw [List.dropLast_eq_take]; simp]
        rw [take_append_take_eq A' (c :: P) P.length _ (by omega)]
        simp
      rw [htake]
      have hfm : (A' ++ [c]).flatMap escapeCharSpec
          = A'.flatMap escapeCharSpec ++ [c] := by
        rw [List.flatMap_append]
        simp [escapeCharSpec, hc]
      rw [hfm]
      simp [List.append_assoc]

theorem length_flatMap_escapeCharSpec (s : List Nat) :
    (s.flatMap escapeCharSpec).length = s.length + 3 * s.countP isEscapedChar := by
  induction s with
  | nil => rfl
  | cons c t ih =>
    rw [List.flatMap_cons, List.length_append, ih, List.countP_cons,
      List.length_cons]
    by_cases hc : isEscapedChar c = true <;> simp [escapeCharSpec, hc] <;> omega

/-- `EscapeControlChars` computes exactly the concatenation of the
per-character escape map over the input. -/
theorem escapeControlChars_eq_flatMap (s : List Nat) :
    EscapeControlChars s = s.flatMap escapeCharSpec := by
  show (writeLoop (s ++ List.replicate (s.length + escapeExtraLen s + 1 - s.length) 0)
      s.length (s.length + escapeExtraLen s)).take (s.length + escapeExtraLen s)
    = s.flatMap escapeCharSpec
  rw [show s.length + escapeExtraLen s + 1 - s.length = escapeExtraLen s + 1 by omega]
  rw [List.replicate_succ']
  rw [show s ++ (List.replicate (escapeExtraLen s) 0 ++ [0])
      = (s ++ List.replicate (escapeExtraLen s) 0) ++ [0] from
    (List.append_assoc _ _ _).symm]
  have hP : (List.replicate (escapeExtraLen s) 0).length = escapeExtraLen s := by
    simp
  have hcond : 3 * s.countP isEscapedChar ≤
      (List.replicate (escapeExtraLen s) 0).length := by
    rw [hP, escapeExtraLen_eq_countP]
  have hw := writeLoop_eq s (List.replicate (escapeExtraLen s) 0) [0] hcond
  rw [hP] at hw
  rw [hw, escapeExtraLen_eq_countP, Nat.sub_self, List.take_zero,
    List.nil_append, ← length_flatMap_escapeCharSpec, List.take_left]

theorem hexCharVal_hexDigitChar (d : Nat) (h : d < 16) :
    hexCharVal (hexDigitChar d) = d := by
  simp only [hexCharVal, hexDigitChar]
  split_ifs <;> omega

theorem unescape_cons_of_ne15 (c : Nat) (t : List Nat) (hc : c ≠ 15) :
    unescapeControlChars (c :: t) = c :: unescapeControlChars t := by
  rcases t with _ | ⟨d, t⟩
  · rfl
  rcases t with _ | ⟨e, t⟩
  · rfl
  rcases t with _ | ⟨f, t⟩
  · rfl
  rw [unescapeControlChars]
  rw [if_neg (fun hand => hc hand.1)]

theorem unescape_flatMap (s : List Nat) :
    unescapeControlChars (s.flatMap escapeCharSpec) = s := by
  induction s with
  | nil => rfl
  | cons c t ih =>
    rw [List.flatMap_cons]
    by_cases hc : isEscapedChar c = true
    · have hc32 : c < 32 ∧ c ≠ 9 := by
        simpa [isEscapedChar] using hc
      rw [show escapeCharSpec c
          = [15, hexDigitChar (c / 16), hexDigitChar (c % 16), 92] from by
        simp [escapeCharSpec, hc]]
      rw [show [15, hexDigitChar (c / 16), hexDigitChar (c % 16), 92] ++
            t.flatMap escapeCharSpec
          = 15 :: hexDigitChar (c / 16) :: hexDigitChar (c % 16) :: 92 ::
            t.flatMap escapeCharSpec from rfl]
      rw [unescapeControlChars, if_pos ⟨rfl, rfl⟩, ih]
      rw [hexCharVal_hexDigitChar (c / 16) (by omega),
        hexCharVal_hexDigitChar (c % 16) (by omega)]
      rw [show c / 16 * 16 + c % 16 = c by omega]
    · rw [show escapeCharSpec c = [c] from by simp [escapeCharSpec, hc]]
      have hc15 : c ≠ 15 := by
        intro h15
        rw [h15] at hc
        exact hc (by decide)
      rw [show [c] ++ t.flatMap escapeCharSpec = c :: t.flatMap escapeCharSpec
        from rfl]
      rw [unescape_cons_of_ne15 c _ hc15, ih]

/-- C7: For every input string, EscapeControlChars replaces each character
whose code is in [0,31] except horizontal tab by the 4-character sequence
(lead-in 0x0F, high hex nibble, low hex nibble, backslash), leaves every
other character unchanged and in order (a tab stays unescaped), the result
length is the original length plus 3 per escaped character, and the
documented reverse transform recovers the original characters exactly. -/
theorem escapeControlChars_matches_claim :
    (∀ s : List Nat, EscapeControlChars s = s.flatMap escapeCharSpec)
    ∧ (∀ s : List Nat, (EscapeControlChars s).length
        = s.length + 3 * s.countP isEscapedChar)
    ∧ (∀ s : List Nat, unescapeControlChars (EscapeControlChars s) = s)
    ∧ (∀ c : Nat, isEscapedChar c = decide (c < 32 ∧ c ≠ 9))
    ∧ escapeCharSpec 9 = [9]
    ∧ EscapeControlChars [1, 9, 65] = [15, 48, 49, 92, 9, 65]
    ∧ unescapeControlChars [15, 48, 49, 92, 9, 65] = [1, 9, 65] := by
  refine ⟨escapeControlChars_eq_flatMap, ?_, ?_, ?_, by decide, by decide, by decide⟩
  · intro s
    rw [escapeControlChars_eq_flatMap, length_flatMap_escapeCharSpec]
  · intro s
    rw [escapeControlChars_eq_flatMap, unescape_flatMap]
  · intro c
    by_cases h9 : c = 9 <;> by_cases h32 : c < 32 <;>
      simp [isEscapedChar, h9, h32]

/-- C8 counterexample: a character equal to the lead-in byte value 0x0F is
itself in the escaped control range [0,31], so EscapeControlChars does not
leave it unchanged: the string [0x0F] becomes [0x0F, '0', 'f', '\\']. -/
theorem escape_leadin_counterexample :
    EscapeControlChars [15] ≠ [15] ∧
    EscapeControlChars [15] = [15, 48, 102, 92] := by
  constructor
  · decide
  · decide

/-- C8 amended: EscapeControlChars leaves a literal backslash unchanged
when it appears in its input (0x5C is not a control byte), but the lead-in
byte value 0x0F is itself a control byte and is therefore escaped to the
4-character sequence (0x0F, '0', 'f', backslash). -/
theorem escape_backslash_leadin_amended :
    (∀ s₁ s₂ : List Nat, EscapeControlChars (s₁ ++ 92 :: s₂)
        = EscapeControlChars s₁ ++ 92 :: EscapeControlChars s₂)
    ∧ (∀ s₁ s₂ : List Nat, EscapeControlChars (s₁ ++ 15 :: s₂)
        = EscapeControlChars s₁ ++ 15 :: 48 :: 102 :: 92 :: EscapeControlChars s₂)
    ∧ EscapeControlChars [92] = [92] := by
  refine ⟨?_, ?_, by decide⟩
  · intro s₁ s₂
    rw [escapeControlChars_eq_flatMap, escapeControlChars_eq_flatMap,
      escapeControlChars_eq_flatMap, List.flatMap_append, List.flatMap_cons]
    rw [show escapeCharSpec 92 = [92] from by decide]
    simp
  · intro s₁ s₂
    rw [escapeControlChars_eq_flatMap, escapeControlChars_eq_flatMap,
      escapeControlChars_eq_flatMap, List.flatMap_append, List.flatMap_cons]
    rw [show escapeCharSpec 15 = [15, 48, 102, 92] from by decide]
    simp

/-! ## Theorems: line-edited notification (claim C6) -/

theorem SetLineFlag_length (lines : List LogicalLine) (nLine : Nat)
    (flag : MergeLineFlag) (b : Bool) :
    (SetLineFlag lines nLine flag b).length = lines.length := by
  simp [SetLineFlag]

theorem SetLineFlag_getD_self (lines : List LogicalLine) (nLine : Nat)
    (flag : MergeLineFlag) (b : Bool) (h : nLine < lines.length) :
    (SetLineFlag lines nLine flag b).getD nLine default
      = { lines.getD nLine default with
          flags := setFlagBit (lines.getD nLine default).flags flag b } := by
  simp only [SetLineFlag, List.getD_eq_getElem?_getD, List.getElem?_set_self h]
  rfl

theorem SetLineFlag_getD_ne (lines : List LogicalLine) (nLine : Nat)
    (flag : MergeLineFlag) (b : Bool) (m : Nat) (hm : m ≠ nLine) :
    (SetLineFlag lines nLine flag b).getD m default = lines.getD m default := by
  simp only [SetLineFlag, List.getD_eq_getElem?_getD,
    List.getElem?_set_ne (fun he => hm he.symm)]

/-- C6: For every valid line index, the line-edited notification clears that
line's DIFF, TRIVIAL and MOVED flags while leaving its GHOST and INVISIBLE
flags exactly as they were (the line's text, EOL marker, and all other
lines are also untouched). -/
theorem onNotifyLineHasBeenEdited_matches_claim (lines : List LogicalLine)
    (nLine : Nat) (h : nLine < lines.length) :
    ((OnNotifyLineHasBeenEdited lines nLine).getD nLine default).flags.diff = false
    ∧ ((OnNotifyLineHasBeenEdited lines nLine).getD nLine default).flags.triv = false
    ∧ ((OnNotifyLineHasBeenEdited lines nLine).getD nLine default).flags.moved = false
    ∧ ((OnNotifyLineHasBeenEdited lines nLine).getD nLine default).flags.ghost
        = (lines.getD nLine default).flags.ghost
    ∧ ((OnNotifyLineHasBeenEdited lines nLine).getD nLine default).flags.invisible
        = (lines.getD nLine default).flags.invisible
    ∧ ((OnNotifyLineHasBeenEdited lines nLine).getD nLine default).text
        = (lines.getD nLine default).text
    ∧ ((OnNotifyLineHasBeenEdited lines nLine).getD nLine default).eol
        = (lines.getD nLine default).eol
    ∧ (∀ m : Nat, m ≠ nLine →
        (OnNotifyLineHasBeenEdited lines nLine).getD m default
          = lines.getD m default) := by
  have key : (OnNotifyLineHasBeenEdited lines nLine).getD nLine default
      = { lines.getD nLine default with
          flags := { (lines.getD nLine default).flags with
            diff := false, triv := false, moved := false, snp := false } } := by
    unfold OnNotifyLineHasBeenEdited
    rw [SetLineFlag_getD_self _ _ _ _ (by simpa [SetLineFlag_length] using h)]
    rw [SetLineFlag_getD_self _ _ _ _ (by simpa [SetLineFlag_length] using h)]
    rw [SetLineFlag_getD_self _ _ _ _ (by simpa [SetLineFlag_length] using h)]
    rw [SetLineFlag_getD_self _ _ _ _ h]
    generalize lines.getD nLine default = l
    rcases l with ⟨tx, el, ⟨d, tv, mv, sp, gh, inv⟩⟩
    rfl
  refine ⟨by rw [key], by rw [key], by rw [key], by rw [key], by rw [key],
    by rw [key], by rw [key], ?_⟩
  intro m hm
  unfold OnNotifyLineHasBeenEdited
  rw [SetLineFlag_getD_ne _ _ _ _ _ hm, SetLineFlag_getD_ne _ _ _ _ _ hm,
    SetLineFlag_getD_ne _ _ _ _ _ hm, SetLineFlag_getD_ne _ _ _ _ _ hm]

/-- Witness for C6 at a concrete one-line buffer whose line has every flag
set: the edit clears DIFF but leaves GHOST set. -/
theorem onNotifyLineHasBeenEdited_witness :
    (0 : Nat) < ([⟨[97], [10], ⟨true, true, true, true, true, true⟩⟩] :
        List LogicalLine).length
    ∧ ((OnNotifyLineHasBeenEdited
          [⟨[97], [10], ⟨true, true, true, true, true, true⟩⟩] 0).getD 0
        default).flags.diff = false
    ∧ ((OnNotifyLineHasBeenEdited
          [⟨[97], [10], ⟨true, true, true, true, true, true⟩⟩] 0).getD 0
        default).flags.ghost = true := by
  have hcl := onNotifyLineHasBeenEdited_matches_claim
    [⟨[97], [10], ⟨true, true, true, true, true, true⟩⟩] 0 (by decide)
  refine ⟨by decide, hcl.1, ?_⟩
  rw [hcl.2.2.2.1]
  decide

/-! ## Theorems: load-time line splitting (claim C3) -/

theorem loadLoop_spec (reads : List (List Nat × List Nat)) (preveol : List Nat) :
    loadLoop reads preveol
      = reads.map (fun r => splitEol (r.1 ++ r.2)) ++
        (match reads.getLast? with
         | none => if preveol = [] then [] else [⟨[], [], {}⟩]
         | some r => if r.2 = [] then [] else [⟨[], [], {}⟩]) := by
  have hsplit : splitEol ([] : List Nat) = (⟨[], [], {}⟩ : LogicalLine) := by
    decide
  induction reads generalizing preveol with
  | nil =>
    simp [loadLoop, hsplit]
  | cons r rest ih =>
    obtain ⟨t, e⟩ := r
    show splitEol (t ++ e) :: loadLoop rest e = _
    rw [ih e]
    rcases rest with _ | ⟨r', rest'⟩
    · simp
    · rw [List.getLast?_cons_cons]
      simp only [List.map_cons, List.cons_append]
      obtain ⟨x, hx⟩ : ∃ x, (r' :: rest').getLast? = some x := by
        cases hcase : (r' :: rest').getLast? with
        | none => simp at hcase
        | some x => exact ⟨x, rfl⟩
      rw [hx]

/-- C3: LoadFromFile's line splitting obeys the final-line convention: the
produced lines are the reader's lines, followed by one extra empty
LogicalLine with empty EOL marker exactly when the last read line's EOL
marker was non-empty (for an empty file the initialized `preveol = "\n"`
plays that role).  In particular content `"a\nb\n"` yields "a"(LF),
"b"(LF), ""(no marker); a zero-byte file yields exactly one empty line
with empty marker; content `"a\nb"` yields "a"(LF), "b"(no marker) with no
extra line. -/
theorem loadFromFile_lineSplitting_matches_claim :
    (∀ reads : List (List Nat × List Nat),
        loadLines reads
          = reads.map (fun r => splitEol (r.1 ++ r.2)) ++
            (match reads.getLast? with
             | none => [⟨[], [], {}⟩]
             | some r => if r.2 = [] then [] else [⟨[], [], {}⟩]))
    ∧ loadLines [] = [⟨[], [], {}⟩]
    ∧ loadLines [([97], [10]), ([98], [10])]
        = [⟨[97], [10], {}⟩, ⟨[98], [10], {}⟩, ⟨[], [], {}⟩]
    ∧ loadLines [([97], [10]), ([98], [])]
        = [⟨[97], [10], {}⟩, ⟨[98], [], {}⟩] := by
  refine ⟨?_, by decide, by decide, by decide⟩
  intro reads
  rw [loadLines, loadLoop_spec reads [10]]
  rcases hL : reads.getLast? with _ | r
  · simp
  · simp

/-! ## Theorems: `GetFullLine` (claim C10) -/

/-- C10: For every valid line index, GetFullLine returns true and outputs
the line's text immediately followed by its EOL marker when their combined
length is nonzero, but returns false with an emptied output string when
text and EOL marker are both empty — so a valid but empty unterminated
line reports failure. -/
theorem getFullLine_matches_claim (lines : List LogicalLine) (i : Nat)
    (h : i < lines.length) :
    ((lines.getD i default).text ++ (lines.getD i default).eol ≠ [] →
      GetFullLine lines i
        = (true, (lines.getD i default).text ++ (lines.getD i default).eol))
    ∧ ((lines.getD i default).text = [] → (lines.getD i default).eol = [] →
      GetFullLine lines i = (false, [])) := by
  constructor
  · intro hne
    rw [GetFullLine,
      if_neg (by simpa [GetFullLineLength, List.length_eq_zero] using hne)]
  · intro ht he
    rw [GetFullLine, if_pos (by simp only [GetFullLineLength]; rw [ht, he]; rfl)]

/-- Witness for C10: in a two-line buffer whose first line is "a"(LF) and
whose second is the empty unterminated final line, GetFullLine succeeds on
line 0 and fails on line 1. -/
theorem getFullLine_witness :
    ((1 : Nat) < ([⟨[97], [10], {}⟩, ⟨[], [], {}⟩] : List LogicalLine).length)
    ∧ GetFullLine [⟨[97], [10], {}⟩, ⟨[], [], {}⟩] 0 = (true, [97, 10])
    ∧ GetFullLine [⟨[97], [10], {}⟩, ⟨[], [], {}⟩] 1 = (false, []) := by
  refine ⟨by decide, ?_, ?_⟩
  · exact (getFullLine_matches_claim [⟨[97], [10], {}⟩, ⟨[], [], {}⟩] 0
      (by decide)).1 (by decide)
  · exact (getFullLine_matches_claim [⟨[97], [10], {}⟩, ⟨[], [], {}⟩] 1
      (by decide)).2 rfl rfl

/-! ## Theorems: sync-point invalidation in `DeleteText2` (claim C5) -/

theorem foldl_deleteSyncPoint (ps : List (List Int)) (d : SyncPointDoc)
    (pane : Nat) (s c e : Int) :
    (ps.foldl
        (fun d syncpnt =>
          if syncPointHit s c e (syncpnt.getD pane 0)
          then DeleteSyncPoint d pane (syncpnt.getD pane 0)
          else d)
        d).syncPoints
      = d.syncPoints.filter
          (fun sp => ps.all (fun q =>
            !syncPointHit s c e (q.getD pane 0) ||
              sp.getD pane 0 != q.getD pane 0)) := by
  induction ps generalizing d with
  | nil => simp
  | cons q ps ih =>
    rw [List.foldl_cons]
    by_cases hq : syncPointHit s c e (q.getD pane 0) = true
    · rw [if_pos hq, ih]
      show (DeleteSyncPoint d pane (q.getD pane 0)).syncPoints.filter _ = _
      rw [show (DeleteSyncPoint d pane (q.getD pane 0)).syncPoints
          = d.syncPoints.filter (fun sp => sp.getD pane 0 != q.getD pane 0)
        from rfl]
      rw [List.filter_filter]
      apply List.filter_congr
      intro x _
      simp only [List.all_cons]
      rw [hq]
      simp [Bool.and_comm]
    · rw [if_neg hq, ih]
      apply List.filter_congr
      intro x _
      have hq' : syncPointHit s c e (q.getD pane 0) = false := by
        simpa using hq
      simp only [List.all_cons]
      rw [hq']
      simp

theorem deleteText2SyncPass_eq_filter (doc : SyncPointDoc) (pane : Nat)
    (s c e : Int) :
    (DeleteText2SyncPass doc pane s c e).syncPoints
      = doc.syncPoints.filter
          (fun sp => !syncPointHit s c e (sp.getD pane 0)) := by
  rw [DeleteText2SyncPass, foldl_deleteSyncPoint]
  apply List.filter_congr
  intro x hx
  by_cases hhit : syncPointHit s c e (x.getD pane 0) = true
  · have hfalse : (doc.syncPoints.all fun q =>
        !syncPointHit s c e (q.getD pane 0) ||
          x.getD pane 0 != q.getD pane 0) = false := by
      apply List.all_eq_false.mpr
      refine ⟨x, hx, ?_⟩
      rw [hhit]
      simp
    rw [hfalse, hhit]
    rfl
  · have hhit' : syncPointHit s c e (x.getD pane 0) = false := by
      simpa using hhit
    have htrue : (doc.syncPoints.all fun q =>
        !syncPointHit s c e (q.getD pane 0) ||
          x.getD pane 0 != q.getD pane 0) = true := by
      apply List.all_eq_true.mpr
      intro q _
      by_cases hline : q.getD pane 0 = x.getD pane 0
      · rw [hline, hhit']
        simp
      · have hx2 : x.getD pane 0 ≠ q.getD pane 0 := fun he => hline he.symm
        rw [show (x.getD pane 0 != q.getD pane 0) = true from bne_iff_ne.mpr hx2]
        simp
    rw [htrue, hhit']
    rfl

/-- C5 counterexample: a delete whose range starts at character 1 of line 2
and ends at line 5 leaves the sync point at line 2 registered, although
its line index 2 is at or after the start line 2 and strictly before the
end line 5, so the claim's "exactly those sync points" fails. -/
theorem deleteText2_syncPoint_counterexample :
    (DeleteText2SyncPass ⟨[[2]]⟩ 0 2 1 5).syncPoints = [[2]]
    ∧ ((2 : Int) ≤ 2 ∧ (2 : Int) < 5) := by
  constructor
  · decide
  · decide

/-- C5 amended: a delete from (nStartLine, nStartChar) to nEndLine
invalidates exactly the registered sync points whose line index for this
pane is at or after nStartLine — where equality with nStartLine counts
only when nStartChar = 0 — and strictly before nEndLine; the invalidation
condition is evaluated on the pre-delete line indices, before the textual
delete is delegated to the base class. -/
theorem deleteText2_syncPoint_amended :
    (∀ (doc : SyncPointDoc) (pane : Nat) (nStartLine nStartChar nEndLine : Int),
      (DeleteText2SyncPass doc pane nStartLine nStartChar nEndLine).syncPoints
        = doc.syncPoints.filter
            (fun sp => !syncPointHit nStartLine nStartChar nEndLine
              (sp.getD pane 0)))
    ∧ (∀ (nStartLine nStartChar nEndLine L : Int),
        syncPointHit nStartLine nStartChar nEndLine L = true ↔
          (((nStartChar = 0 ∧ nStartLine = L) ∨ nStartLine < L) ∧
            L < nEndLine)) := by
  refine ⟨deleteText2SyncPass_eq_filter, ?_⟩
  intro s c e L
  simp [syncPointHit, and_assoc]

/-! ## Theorems: save pipeline (claims C4, C9) -/

/-- C4: If SaveToFile of a user file (bTempFile = false) reaches the pack
step and the external pack transform fails, then SaveToFile deletes the
intermediate temp file, returns SAVE_PACK_FAILED, leaves the destination
file byte-for-byte unchanged, and leaves the buffer state — in particular
the modified flag and the undo sync position — unchanged. -/
theorem saveToFile_packFailed_matches_claim (env : SaveEnv) (buf : BufferState)
    (fs : FileSystem) (pszFileName : String) (infoUnpacker : Option PackingInfo)
    (nCrlfStyle : EolStyle) (bClearModifiedFlag : Bool) (nStartLine : Nat)
    (nLines : Option Nat)
    (hname : pszFileName ≠ "") (htemp : env.tempName ≠ "")
    (hopen : env.openOk = true)
    (hpack : ∀ content, env.pack env.tempName content = none)
    (hne : env.tempName ≠ pszFileName) :
    (SaveToFile env buf fs pszFileName false infoUnpacker nCrlfStyle
        bClearModifiedFlag nStartLine nLines).1 = SaveResult.packFailed
    ∧ (SaveToFile env buf fs pszFileName false infoUnpacker nCrlfStyle
        bClearModifiedFlag nStartLine nLines).2.1 pszFileName = fs pszFileName
    ∧ (SaveToFile env buf fs pszFileName false infoUnpacker nCrlfStyle
        bClearModifiedFlag nStartLine nLines).2.1 env.tempName = none
    ∧ (SaveToFile env buf fs pszFileName false infoUnpacker nCrlfStyle
        bClearModifiedFlag nStartLine nLines).2.2 = buf
    ∧ (SaveToFile env buf fs pszFileName false infoUnpacker nCrlfStyle
        bClearModifiedFlag nStartLine nLines).2.2.modified = buf.modified
    ∧ (SaveToFile env buf fs pszFileName false infoUnpacker nCrlfStyle
        bClearModifiedFlag nStartLine nLines).2.2.syncPosition
        = buf.syncPosition := by
  have key : SaveToFile env buf fs pszFileName false infoUnpacker nCrlfStyle
      bClearModifiedFlag nStartLine nLines
    = (SaveResult.packFailed,
       (fs.write env.tempName (savedContent buf false
         (effectiveEolStyle nCrlfStyle env.allowMixedEol infoUnpacker
           buf.crlfMode)
         nStartLine (resolveLineCount buf nStartLine nLines))).remove
         env.tempName,
       buf) := by
    unfold SaveToFile
    rw [if_neg hname, if_neg (by decide : ¬((false : Bool) = true)),
      if_neg htemp, hopen, if_neg (by decide : ¬((!(true : Bool)) = true)),
      hpack]
  rw [key]
  refine ⟨rfl, ?_, ?_, rfl, rfl, rfl⟩
  · show ((fs.write env.tempName _).remove env.tempName) pszFileName
      = fs pszFileName
    simp only [FileSystem.remove, FileSystem.write]
    rw [if_neg (fun he => hne he.symm), if_neg (fun he => hne he.symm)]
  · show ((fs.write env.tempName _).remove env.tempName) env.tempName = none
    simp [FileSystem.remove]

/-- Witness for C4 at a fully concrete call: the pack transform always
fails, so saving user file "dest" through temp file "tmp" reports
SAVE_PACK_FAILED and the buffer keeps its modified flag. -/
theorem saveToFile_packFailed_witness :
    (("dest" : String) ≠ "" ∧ ("tmp" : String) ≠ "" ∧
      ("tmp" : String) ≠ "dest")
    ∧ (SaveToFile ⟨true, "tmp", true, true, fun _ _ => none⟩
        ⟨[⟨[97], [], {}⟩], true, 0, 3, EolStyle.unix, 0, 7⟩ (fun _ => none)
        "dest" false (some ⟨false, 0⟩) EolStyle.automatic true 0 none).1
      = SaveResult.packFailed
    ∧ (SaveToFile ⟨true, "tmp", true, true, fun _ _ => none⟩
        ⟨[⟨[97], [], {}⟩], true, 0, 3, EolStyle.unix, 0, 7⟩ (fun _ => none)
        "dest" false (some ⟨false, 0⟩) EolStyle.automatic true 0 none).2.2.modified
      = true := by
  have happ := saveToFile_packFailed_matches_claim
    ⟨true, "tmp", true, true, fun _ _ => none⟩
    ⟨[⟨[97], [], {}⟩], true, 0, 3, EolStyle.unix, 0, 7⟩
    (fun _ => none) "dest" (some ⟨false, 0⟩) EolStyle.automatic true 0 none
    (by decide) (by decide) rfl (fun _ => rfl) (by decide)
  exact ⟨⟨by decide, by decide, by decide⟩, happ.1, happ.2.2.2.2.1⟩

/-- C9 counterexample: with a pack transform whose disallowMixedEOL
constraint is set, a concretely requested DOS style is replaced by the
buffer's recorded UNIX style, although the requested style is not
AUTOMATIC and the mixed-EOL policy even allows mixed output. -/
theorem saveEolSubstitution_counterexample :
    effectiveEolStyle EolStyle.dos true (some ⟨true, 0⟩) EolStyle.unix
      = EolStyle.unix
    ∧ EolStyle.unix ≠ EolStyle.dos
    ∧ EolStyle.dos ≠ EolStyle.automatic := by
  decide

/-- C9 amended: in SaveToFile the buffer's recorded EOL style is
substituted for the requested style if and only if (the requested style is
AUTOMATIC and the mixed-EOL policy option is off) or (a pack transform is
supplied and its disallowMixedEOL constraint is set) — C++ `&&`/`||`
precedence makes the pack constraint apply on its own, so in that case
even a concretely requested DOS, UNIX or MAC style is replaced. -/
theorem saveEolSubstitution_amended :
    (∀ (nCrlfStyle : EolStyle) (allowMixedEol : Bool)
        (infoUnpacker : Option PackingInfo),
      substituteEolStyle nCrlfStyle allowMixedEol infoUnpacker = true ↔
        ((nCrlfStyle = EolStyle.automatic ∧ allowMixedEol = false) ∨
          (∃ info, infoUnpacker = some info ∧ info.disallowMixedEOL = true)))
    ∧ (∀ (nCrlfStyle bufStyle : EolStyle) (allowMixedEol : Bool) (sub : Nat),
        effectiveEolStyle nCrlfStyle allowMixedEol (some ⟨true, sub⟩) bufStyle
          = bufStyle) := by
  constructor
  · intro s a u
    rcases u with _ | ⟨d, sub⟩
    · cases s <;> cases a <;> simp [substituteEolStyle]
    · cases s <;> cases a <;> cases d <;> simp [substituteEolStyle]
  · intro s bufStyle a sub
    simp [effectiveEolStyle, substituteEolStyle]

end DiffTextBuffer
